import Mathlib

/-!
Shallow embedding of `debuggerd/libdebuggerd/tombstone.cpp` (functions
`engrave_tombstone_ucontext`, lines 54-122, and `engrave_tombstone`,
lines 124-151) together with the collaborators the file calls.

Modelling conventions:
* `pid_t`, `uid_t`, file descriptors and `uint64_t` addresses are `Int`
  (no arithmetic overflows occur in the modelled code paths).
* `std::map<pid_t, ThreadInfo>` is an association list kept strictly
  sorted by key, mirroring the ordered-container invariant; `operator[]`
  is `mapIndex` (lookup-or-value-initialize) and assignment through
  `operator[]` is `mapInsert` (ordered insert-or-overwrite).
* System calls and library reads (`getuid`, `getpid`, `gettid`,
  `get_thread_name`, `get_command_line`, `ReadFileToString`, `prctl`,
  `iterate_tids`, `unwinder.Initialize`, `SerializeToFileDescriptor`)
  are oracles packaged in an `Env` record; a `none`/`false` oracle value
  is the corresponding failure.
* `async_safe_format_log` calls are recorded as `LogEvent`s; bytes that
  reach the proto sink are recorded as the serialized `Tombstone` value
  (the protobuf encoding itself is external library code and injective);
  text output is the list of (line, is-header) pairs handed to `_LOG`.
* `dup` and the `unique_fd` destructors are modelled on an explicit
  file-descriptor table state `FdState`.
-/

abbrev Tid := Int

/-- The `siginfo_t*` record: the modelled code only reads `si_signo`. -/
structure Siginfo where
  si_signo : Int
deriving DecidableEq, Repr

/-- Modelled from the spec: the two hardware security attribute flags of
`ThreadInfo` (declared in `libdebuggerd/types.h`, which is not under `src/`)
each default to an "unsupported" sentinel rather than failing; the value the
header uses is `-1`. -/
def unsupported : Int := -1

/-- Mirror of `ThreadInfo` (declared in `libdebuggerd/types.h`): the fields
written by `tombstone.cpp`. `registers` models the
`std::unique_ptr<unwindstack::Regs>` (present only when captured live, the
raw machine context standing in for the register snapshot), `siginfo` the
`siginfo_t*` (null = absent). -/
structure ThreadInfo where
  registers : Option Nat
  uid : Int
  tid : Tid
  thread_name : String
  pid : Int
  command_line : List String
  selinux_label : String
  siginfo : Option Siginfo
  signo : Int
  tagged_addr_ctrl : Int
  pac_enabled_keys : Int
deriving DecidableEq, Repr

/-- Modelled from the spec: the value `std::map::operator[]` value-initializes
for an absent key (`ThreadInfo()` with `types.h` not under `src/`): scalar
fields zero, strings and vectors empty, pointers null, and the two hardware
attribute flags at their "unsupported" default. -/
def ThreadInfo.default : ThreadInfo :=
  { registers := none, uid := 0, tid := 0, thread_name := "", pid := 0,
    command_line := [], selinux_label := "", siginfo := none, signo := 0,
    tagged_addr_ctrl := unsupported, pac_enabled_keys := unsupported }

/-- `std::map<pid_t, ThreadInfo>` as a strictly-sorted association list. -/
abbrev ThreadMap := List (Tid × ThreadInfo)

/-- Ordered insert-or-overwrite: the effect of `threads[k] = v`. -/
def mapInsert (k : Tid) (v : ThreadInfo) : ThreadMap → ThreadMap
  | [] => [(k, v)]
  | (k', v') :: rest =>
    if k < k' then (k, v) :: (k', v') :: rest
    else if k = k' then (k, v) :: rest
    else (k', v') :: mapInsert k v rest

/-- `std::map::find`-style lookup. -/
def mapLookup (k : Tid) : ThreadMap → Option ThreadInfo
  | [] => none
  | (k', v') :: rest => if k = k' then some v' else mapLookup k rest

/-- `std::map::operator[]` on an lvalue map: returns the (possibly extended)
map and the mapped value, value-initializing an absent key. -/
def mapIndex (m : ThreadMap) (k : Tid) : ThreadMap × ThreadInfo :=
  match mapLookup k m with
  | some v => (m, v)
  | none => (mapInsert k ThreadInfo.default m, ThreadInfo.default)

/-- The ordered-container invariant of `std::map`: keys strictly ascending. -/
def SortedKeys (m : ThreadMap) : Prop :=
  List.Sorted (fun a b => a < b) (m.map Prod.fst)

instance (m : ThreadMap) : Decidable (SortedKeys m) :=
  List.decidableSorted (m.map Prod.fst)

/-- The ambient process/OS state an invocation observes: results of the
system calls and best-effort reads `tombstone.cpp` performs. `none` (or
`false` for the two boolean oracles) models failure of the corresponding
call. -/
structure Env where
  uid : Int
  pid : Int
  target_tid : Tid
  thread_name_read : Tid → Option String
  cmdline_read : Option (List String)
  selinux_read : Option String
  tids : Option (List Tid)
  is_aarch64 : Bool
  prctl_tagged_addr_ctrl : Int
  prctl_pac_enabled_keys : Int
  unwinder_init_ok : Bool
  serialize_ok : Bool

/-- Modelled from the spec: `get_thread_name` (defined in `util.cpp`, not
under `src/`) is a best-effort read that yields the empty string on
failure, never an error. -/
def get_thread_name (env : Env) (tid : Tid) : String :=
  (env.thread_name_read tid).getD ""

/-- Modelled from the spec: `get_command_line` (defined in `util.cpp`, not
under `src/`) is a best-effort read that yields an empty sequence on
failure, never an error. -/
def get_command_line (env : Env) : List String :=
  env.cmdline_read.getD []

/-- The `async_safe_format_log` calls made by `tombstone.cpp`. -/
inductive LogEvent where
  | iterateTidsFailed
  | unwinderInitFailed
  | protoWriteFailed
deriving DecidableEq, Repr

/-- `ProcessInfo`: `engrave_tombstone_ucontext` fills in only
`abort_msg_address` (zero is the documented "absent" sentinel). -/
structure ProcessInfo where
  abort_msg_address : Int
deriving DecidableEq, Repr

/-- The in-memory `Tombstone` protobuf message, as far as the claims need
its content: process identity, crashing tid, abort-message address and one
entry per thread of the mapping. -/
structure Tombstone where
  pid : Int
  tid : Tid
  abort_msg_address : Int
  entries : ThreadMap
deriving DecidableEq, Repr

/-- Observable output of one invocation: ordered log events, the message
value that reached the proto sink (if any), and the (line, is-header)
pairs handed to the text sink. -/
structure Output where
  logs : List LogEvent
  binaryOut : Option Tombstone
  textOut : List (String × Bool)
deriving DecidableEq, Repr

/-- The process's file-descriptor table: the set of open descriptors and
the next descriptor number `dup` would hand out. -/
structure FdState where
  openFds : List Int
  nextFd : Int
deriving DecidableEq, Repr

/-- Well-formedness of the descriptor table: descriptors are non-negative
and below the allocation bound. -/
def FdWF (s : FdState) : Prop :=
  0 ≤ s.nextFd ∧ ∀ fd ∈ s.openFds, 0 ≤ fd ∧ fd < s.nextFd

instance (s : FdState) : Decidable (FdWF s) := by
  unfold FdWF; infer_instance

/-- POSIX `dup`: duplicating an open descriptor allocates a fresh one
aliasing the same description; duplicating anything else fails with `-1`. -/
def dupFd (s : FdState) (fd : Int) : FdState × Int :=
  if fd ∈ s.openFds then
    ({ openFds := s.nextFd :: s.openFds, nextFd := s.nextFd + 1 }, s.nextFd)
  else (s, -1)

/-- The `unique_fd` destructor: closes its descriptor unless it is the
`-1` sentinel. -/
def closeFd (s : FdState) (fd : Int) : FdState :=
  if fd < 0 then s
  else { s with openFds := s.openFds.filter (fun x => x ≠ fd) }

/-- Modelled from the spec: `engrave_tombstone_proto`
(`tombstone_proto.cpp` is not under `src/`). The builder aggregates process
identity, the abort-message address and the tid→ThreadInfo mapping into one
`Tombstone` message, iterating the mapping in its (ascending-key) order and
emitting one entry per thread. -/
def engrave_tombstone_proto (threads : ThreadMap) (target_thread : Tid)
    (process_info : ProcessInfo) : Tombstone :=
  { pid := ((mapLookup target_thread threads).getD ThreadInfo.default).pid,
    tid := target_thread,
    abort_msg_address := process_info.abort_msg_address,
    entries := threads }

/-- Modelled from the spec: per-thread section of the text rendering — a
header line naming the thread, then its backtrace or an explicit
"no backtrace available" marker when no register snapshot exists. -/
def renderThreadLines (e : Tid × ThreadInfo) : List (String × Bool) :=
  (toString e.1 ++ " name " ++ e.2.thread_name, true) ::
    (match e.2.registers with
     | some _ => [("backtrace", false)]
     | none => [("no backtrace available", false)])

/-- Modelled from the spec: `tombstone_proto_to_text`
(`tombstone_proto_to_text.cpp` is not under `src/`) is a pure, total
rendering of the message: a header naming process and crashing thread,
then each thread entry in the message's order. -/
def tombstone_proto_to_text (t : Tombstone) : List (String × Bool) :=
  (toString t.pid ++ " crashed " ++ toString t.tid, true) ::
    (t.entries.map renderThreadLines).flatten

/-- Lines 56-85 of `tombstone.cpp`: capture of the crashing thread's
`ThreadInfo` — register snapshot reconstructed from the `ucontext`, signal
record and number from `siginfo`, best-effort name / command-line /
SELinux-label reads, and the two `prctl` hardware attribute flags, queried
only on aarch64 (elsewhere the designated initializer leaves the
"unsupported" defaults). -/
def crashingThreadInfo (env : Env) (siginfo : Siginfo) (ucontext : Nat) :
    ThreadInfo :=
  { registers := some ucontext,
    uid := env.uid,
    tid := env.target_tid,
    thread_name := get_thread_name env env.target_tid,
    pid := env.pid,
    command_line := get_command_line env,
    selinux_label := env.selinux_read.getD "",
    siginfo := some siginfo,
    signo := siginfo.si_signo,
    tagged_addr_ctrl :=
      if env.is_aarch64 then env.prctl_tagged_addr_ctrl else unsupported,
    pac_enabled_keys :=
      if env.is_aarch64 then env.prctl_pac_enabled_keys else unsupported }

/-- Lines 87-99: the `iterate_tids` callback body for one discovered tid.
The crashing tid is skipped; any other tid gets a synthesized `ThreadInfo`
whose inherited fields are read through the reference `thread`, which line
86 bound to `threads[pid]` — re-read from the current map each iteration,
since it aliases the map node for key `pid`. The synthesized entry carries
a freshly queried thread name and leaves every other field (registers,
siginfo, signo, selinux_label) at its default. -/
def synthesizeSibling (env : Env) (m : ThreadMap) (tid : Tid) : ThreadMap :=
  if tid = env.target_tid then m
  else
    let thread := (mapLookup env.pid m).getD ThreadInfo.default
    mapInsert tid
      { ThreadInfo.default with
        uid := thread.uid,
        tid := tid,
        pid := thread.pid,
        command_line := thread.command_line,
        thread_name := get_thread_name env tid,
        tagged_addr_ctrl := thread.tagged_addr_ctrl,
        pac_enabled_keys := thread.pac_enabled_keys } m

/-- Lines 75-103: building the tid→ThreadInfo mapping. Line 76 stores the
captured crashing thread at key `target_tid`; line 86 evaluates
`threads[pid]` (value-initializing key `pid` when absent); lines 87-103
run `iterate_tids`, which on success calls the callback for each listed
tid (modelled from the spec: `iterate_tids` lives in `util.cpp`, not under
`src/`; it reads the live thread-id listing) and on failure leaves the map
as is and logs a warning. Returns the final map and the warnings logged. -/
def buildThreads (env : Env) (siginfo : Siginfo) (ucontext : Nat) :
    ThreadMap × List LogEvent :=
  let threads0 := mapInsert env.target_tid (crashingThreadInfo env siginfo ucontext) []
  let threads1 := (mapIndex threads0 env.pid).1
  match env.tids with
  | none => (threads1, [LogEvent.iterateTidsFailed])
  | some tids => (tids.foldl (synthesizeSibling env) threads1, [])

/-- Lines 124-151, `engrave_tombstone` (the collaborator parameters the
modelled call site passes as null — open files, am-fd buffer, guest
architecture and unwinder — are omitted): builds the `Tombstone` message
once, serializes it to `proto_fd` unless that carries the `-1` sentinel
(logging, not propagating, a write failure), then renders the same message
to text. Its two `unique_fd` parameters are closed on return. -/
def engrave_tombstone (env : Env) (s : FdState) (output_fd proto_fd : Int)
    (threads : ThreadMap) (target_thread : Tid)
    (process_info : ProcessInfo) : Output × FdState :=
  let tombstone := engrave_tombstone_proto threads target_thread process_info
  let serialized : Option Tombstone × List LogEvent :=
    if proto_fd ≠ -1 then
      if env.serialize_ok then (some tombstone, [])
      else (none, [LogEvent.protoWriteFailed])
    else (none, [])
  ({ logs := serialized.2,
     binaryOut := serialized.1,
     textOut := tombstone_proto_to_text tombstone },
   closeFd (closeFd s proto_fd) output_fd)

/-- Lines 54-122, `engrave_tombstone_ucontext`: captures the crashing
thread, enumerates siblings, and — unless `unwinder.Initialize` fails, in
which case it logs and returns before any output — calls
`engrave_tombstone` on `dup`licates of the two caller descriptors. -/
def engrave_tombstone_ucontext (env : Env) (s : FdState)
    (tombstone_fd proto_fd : Int) (abort_msg_address : Int)
    (siginfo : Siginfo) (ucontext : Nat) : Output × FdState :=
  let built := buildThreads env siginfo ucontext
  if env.unwinder_init_ok then
    let process_info : ProcessInfo := { abort_msg_address := abort_msg_address }
    let d1 := dupFd s tombstone_fd
    let d2 := dupFd d1.1 proto_fd
    let r := engrave_tombstone env d2.1 d1.2 d2.2 built.1 env.target_tid process_info
    ({ r.1 with logs := built.2 ++ r.1.logs }, r.2)
  else
    ({ logs := built.2 ++ [LogEvent.unwinderInitFailed],
       binaryOut := none, textOut := [] }, s)

/-! Helper lemmas about the ordered-map operations. -/

theorem mem_keys_of_mapInsert (k : Tid) (v : ThreadInfo) :
    ∀ m : ThreadMap, ∀ j ∈ (mapInsert k v m).map Prod.fst,
      j = k ∨ j ∈ m.map Prod.fst := by
  intro m
  induction m with
  | nil => intro j hj; simp [mapInsert] at hj; exact Or.inl hj
  | cons hd tl ih =>
    obtain ⟨k', v'⟩ := hd
    intro j hj
    by_cases h1 : k < k'
    · simp only [mapInsert, if_pos h1, List.map_cons, List.mem_cons] at hj
      rcases hj with h | h
      · exact Or.inl h
      · exact Or.inr (by rw [List.map_cons, List.mem_cons]; exact h)
    · by_cases h2 : k = k'
      · simp only [mapInsert, if_neg h1, if_pos h2, List.map_cons, List.mem_cons] at hj
        rcases hj with h | h
        · exact Or.inl h
        · exact Or.inr (by rw [List.map_cons, List.mem_cons]; exact Or.inr h)
      · simp only [mapInsert, if_neg h1, if_neg h2, List.map_cons, List.mem_cons] at hj
        rcases hj with h | h
        · exact Or.inr (by rw [List.map_cons, List.mem_cons]; exact Or.inl h)
        · rcases ih j h with h' | h'
          · exact Or.inl h'
          · exact Or.inr (by rw [List.map_cons, List.mem_cons]; exact Or.inr h')

theorem mapInsert_sortedKeys (k : Tid) (v : ThreadInfo) :
    ∀ m : ThreadMap, SortedKeys m → SortedKeys (mapInsert k v m) := by
  intro m
  induction m with
  | nil => intro _; simp [mapInsert, SortedKeys]
  | cons hd tl ih =>
    obtain ⟨k', v'⟩ := hd
    intro hs
    rw [SortedKeys, List.map_cons, List.sorted_cons] at hs
    obtain ⟨hk', htl⟩ := hs
    by_cases h1 : k < k'
    · simp only [mapInsert, if_pos h1]
      rw [SortedKeys, List.map_cons, List.sorted_cons]
      refine ⟨?_, ?_⟩
      · intro b hb
        rcases (by simpa using hb) with h | h
        · exact h ▸ h1
        · exact lt_trans h1 (hk' b (by simpa using h))
      · rw [List.map_cons, List.sorted_cons]
        exact ⟨hk', htl⟩
    · by_cases h2 : k = k'
      · simp only [mapInsert, if_neg h1, if_pos h2]
        rw [SortedKeys, List.map_cons, List.sorted_cons]
        exact ⟨fun b hb => h2 ▸ hk' b hb, htl⟩
      · have h3 : k' < k := lt_of_le_of_ne (not_lt.mp h1) (Ne.symm h2)
        simp only [mapInsert, if_neg h1, if_neg h2]
        rw [SortedKeys, List.map_cons, List.sorted_cons]
        refine ⟨?_, ih htl⟩
        intro b hb
        rcases mem_keys_of_mapInsert k v tl b hb with h | h
        · exact h ▸ h3
        · exact hk' b h

theorem self_mem_keys_mapInsert (k : Tid) (v : ThreadInfo) :
    ∀ m : ThreadMap, k ∈ (mapInsert k v m).map Prod.fst := by
  intro m
  induction m with
  | nil => simp [mapInsert]
  | cons hd tl ih =>
    obtain ⟨k', v'⟩ := hd
    by_cases h1 : k < k'
    · simp [mapInsert, if_pos h1]
    · by_cases h2 : k = k'
      · simp [mapInsert, if_neg h1, if_pos h2]
      · simp only [mapInsert, if_neg h1, if_neg h2, List.map_cons]
        exact List.mem_cons_of_mem _ ih

theorem mem_keys_mapInsert_of_mem (k : Tid) (v : ThreadInfo) :
    ∀ m : ThreadMap, ∀ j ∈ m.map Prod.fst, j ∈ (mapInsert k v m).map Prod.fst := by
  intro m
  induction m with
  | nil => intro j hj; simp at hj
  | cons hd tl ih =>
    obtain ⟨k', v'⟩ := hd
    intro j hj
    rw [List.map_cons, List.mem_cons] at hj
    rcases hj with h | h
    · by_cases h1 : k < k'
      · simp only [mapInsert, if_pos h1, List.map_cons, List.mem_cons]
        exact Or.inr (Or.inl h)
      · by_cases h2 : k = k'
        · simp only [mapInsert, if_neg h1, if_pos h2, List.map_cons, List.mem_cons]
          exact Or.inl (h.trans h2.symm)
        · simp only [mapInsert, if_neg h1, if_neg h2, List.map_cons, List.mem_cons]
          exact Or.inl h
    · by_cases h1 : k < k'
      · simp only [mapInsert, if_pos h1, List.map_cons, List.mem_cons]
        exact Or.inr (Or.inr h)
      · by_cases h2 : k = k'
        · simp only [mapInsert, if_neg h1, if_pos h2, List.map_cons, List.mem_cons]
          exact Or.inr h
        · simp only [mapInsert, if_neg h1, if_neg h2, List.map_cons, List.mem_cons]
          exact Or.inr (ih j h)

theorem mem_of_mem_mapInsert (k : Tid) (v : ThreadInfo) :
    ∀ m : ThreadMap, ∀ p ∈ mapInsert k v m, p = (k, v) ∨ p ∈ m := by
  intro m
  induction m with
  | nil => intro p hp; simp [mapInsert] at hp; exact Or.inl hp
  | cons hd tl ih =>
    obtain ⟨k', v'⟩ := hd
    intro p hp
    by_cases h1 : k < k'
    · simp only [mapInsert, if_pos h1, List.mem_cons] at hp
      rcases hp with h | h
      · exact Or.inl h
      · exact Or.inr (List.mem_cons.mpr h)
    · by_cases h2 : k = k'
      · simp only [mapInsert, if_neg h1, if_pos h2, List.mem_cons] at hp
        rcases hp with h | h
        · exact Or.inl h
        · exact Or.inr (List.mem_cons_of_mem _ h)
      · simp only [mapInsert, if_neg h1, if_neg h2, List.mem_cons] at hp
        rcases hp with h | h
        · exact Or.inr (List.mem_cons.mpr (Or.inl h))
        · rcases ih p h with h' | h'
          · exact Or.inl h'
          · exact Or.inr (List.mem_cons_of_mem _ h')

theorem mapLookup_eq_none_not_mem (k : Tid) :
    ∀ m : ThreadMap, mapLookup k m = none → k ∉ m.map Prod.fst := by
  intro m
  induction m with
  | nil => intro _; simp
  | cons hd tl ih =>
    obtain ⟨k', v'⟩ := hd
    intro hl hm
    by_cases h : k = k'
    · simp [mapLookup, h] at hl
    · simp only [mapLookup, if_neg h] at hl
      rcases (by simpa using hm) with h' | h'
      · exact h h'
      · exact ih hl (by simpa using h')

theorem foldl_preserves {α : Type} {σ : Type} (P : σ → Prop) (f : σ → α → σ)
    (hstep : ∀ s a, P s → P (f s a)) :
    ∀ (l : List α) (s : σ), P s → P (l.foldl f s) := by
  intro l
  induction l with
  | nil => intro s hs; exact hs
  | cons a tl ih => intro s hs; exact ih (f s a) (hstep s a hs)

/-- Invariant maintained while the mapping is built: keys strictly sorted,
the crashing tid is present, and an entry carries a signal record exactly
when it is the crashing tid's entry. -/
def ThreadsInv (t : Tid) (m : ThreadMap) : Prop :=
  SortedKeys m ∧ t ∈ m.map Prod.fst ∧
    ∀ p ∈ m, p.2.siginfo.isSome = true ↔ p.1 = t

theorem mapIndex_threadsInv (t k : Tid) (m : ThreadMap)
    (h : ThreadsInv t m) : ThreadsInv t (mapIndex m k).1 := by
  obtain ⟨hs, hmem, hiff⟩ := h
  unfold mapIndex
  cases hl : mapLookup k m with
  | some v => exact ⟨hs, hmem, hiff⟩
  | none =>
    have hk : k ∉ m.map Prod.fst := mapLookup_eq_none_not_mem k m hl
    have hkt : k ≠ t := fun he => hk (he ▸ hmem)
    refine ⟨mapInsert_sortedKeys k _ m hs, mem_keys_mapInsert_of_mem k _ m t hmem, ?_⟩
    intro p hp
    rcases mem_of_mem_mapInsert k _ m p hp with hpe | hpm
    · rw [hpe]
      simp [ThreadInfo.default, hkt]
    · exact hiff p hpm

theorem synthesizeSibling_threadsInv (env : Env) (tid : Tid) (m : ThreadMap)
    (h : ThreadsInv env.target_tid m) :
    ThreadsInv env.target_tid (synthesizeSibling env m tid) := by
  obtain ⟨hs, hmem, hiff⟩ := h
  unfold synthesizeSibling
  by_cases ht : tid = env.target_tid
  · rw [if_pos ht]; exact ⟨hs, hmem, hiff⟩
  · rw [if_neg ht]
    refine ⟨mapInsert_sortedKeys tid _ m hs,
            mem_keys_mapInsert_of_mem tid _ m _ hmem, ?_⟩
    intro p hp
    rcases mem_of_mem_mapInsert tid _ m p hp with hpe | hpm
    · rw [hpe]
      simp [ThreadInfo.default, ht]
    · exact hiff p hpm

theorem buildThreads_threadsInv (env : Env) (si : Siginfo) (uc : Nat) :
    ThreadsInv env.target_tid (buildThreads env si uc).1 := by
  have h0 : ThreadsInv env.target_tid
      (mapInsert env.target_tid (crashingThreadInfo env si uc) []) := by
    refine ⟨?_, ?_, ?_⟩
    · simp [mapInsert, SortedKeys]
    · simp [mapInsert]
    · intro p hp
      simp only [mapInsert, List.mem_singleton] at hp
      rw [hp]
      simp [crashingThreadInfo]
  have h1 := mapIndex_threadsInv env.target_tid env.pid _ h0
  unfold buildThreads
  cases htids : env.tids with
  | none => exact h1
  | some tids =>
    exact foldl_preserves (ThreadsInv env.target_tid) (synthesizeSibling env)
      (fun m a hm => synthesizeSibling_threadsInv env a m hm) tids _ h1

theorem filter_siginfo_singleton (t : Tid) :
    ∀ m : ThreadMap, (m.map Prod.fst).Nodup →
      (∀ p ∈ m, p.2.siginfo.isSome = true ↔ p.1 = t) →
      t ∈ m.map Prod.fst →
      (m.filter (fun p => p.2.siginfo.isSome)).map Prod.fst = [t] := by
  intro m
  induction m with
  | nil => intro _ _ ht; simp at ht
  | cons hd tl ih =>
    obtain ⟨k, v⟩ := hd
    intro hnd hiff ht
    rw [List.map_cons, List.nodup_cons] at hnd
    obtain ⟨hk_notin, hnd'⟩ := hnd
    by_cases hk : k = t
    · have hv : v.siginfo.isSome = true :=
        (hiff (k, v) (List.mem_cons_self _ _)).mpr hk
      have hrest : tl.filter (fun p => p.2.siginfo.isSome) = [] := by
        rw [List.filter_eq_nil_iff]
        intro p hp hsome
        have hpt : p.1 = t := (hiff p (List.mem_cons_of_mem _ hp)).mp hsome
        have hp1 : p.1 ∈ tl.map Prod.fst := List.mem_map_of_mem Prod.fst hp
        exact hk_notin (by rw [hk, ← hpt]; exact hp1)
      rw [List.filter_cons, if_pos (by simpa using hv), hrest]
      simp [hk]
    · have hv : ¬ v.siginfo.isSome = true := fun hsome =>
        hk ((hiff (k, v) (List.mem_cons_self _ _)).mp hsome)
      rw [List.filter_cons, if_neg (by simpa using hv)]
      have ht' : t ∈ tl.map Prod.fst := by
        rw [List.map_cons, List.mem_cons] at ht
        rcases ht with h | h
        · exact absurd h.symm hk
        · exact h
      exact ih hnd' (fun p hp => hiff p (List.mem_cons_of_mem _ hp)) ht'

/-! Helper lemmas about the file-descriptor table. -/

theorem filter_ne_of_not_mem (l : List Int) (a : Int) (h : a ∉ l) :
    l.filter (fun x => x ≠ a) = l := by
  induction l with
  | nil => rfl
  | cons b tl ih =>
    have hba : b ≠ a := fun he => h (he ▸ List.mem_cons_self b tl)
    rw [List.filter_cons, if_pos (by simpa using hba),
        ih (fun hm => h (List.mem_cons_of_mem _ hm))]

theorem closeFd_neg_one (s : FdState) : closeFd s (-1) = s := by
  simp [closeFd]

theorem closeFd_fresh_cons (l : List Int) (n m : Int) (hn : 0 ≤ n) (hl : n ∉ l) :
    (closeFd { openFds := n :: l, nextFd := m } n).openFds = l := by
  unfold closeFd
  rw [if_neg (by omega)]
  simp only
  rw [List.filter_cons, if_neg (by simp)]
  exact filter_ne_of_not_mem l n hl

theorem dup_dup_close_close (s : FdState) (fd1 fd2 : Int) (hwf : FdWF s) :
    (closeFd (closeFd (dupFd (dupFd s fd1).1 fd2).1
        (dupFd (dupFd s fd1).1 fd2).2) (dupFd s fd1).2).openFds = s.openFds := by
  obtain ⟨hn, hall⟩ := hwf
  have hfresh : s.nextFd ∉ s.openFds := fun hm => lt_irrefl _ (hall _ hm).2
  have hfresh1 : s.nextFd + 1 ∉ s.openFds := fun hm => by
    have := (hall _ hm).2; omega
  have hfresh1c : s.nextFd + 1 ∉ s.nextFd :: s.openFds := by
    intro hm
    rcases List.mem_cons.mp hm with h | h
    · omega
    · exact hfresh1 h
  by_cases h1 : fd1 ∈ s.openFds
  · have e1 : dupFd s fd1
        = ({ openFds := s.nextFd :: s.openFds, nextFd := s.nextFd + 1 }, s.nextFd) := by
      simp [dupFd, h1]
    by_cases h2 : fd2 ∈ s.nextFd :: s.openFds
    · have e2 : dupFd ({ openFds := s.nextFd :: s.openFds, nextFd := s.nextFd + 1 } : FdState) fd2
          = ({ openFds := (s.nextFd + 1) :: s.nextFd :: s.openFds,
               nextFd := s.nextFd + 1 + 1 }, s.nextFd + 1) := by
        simp [dupFd, h2]
      have e3 : closeFd ({ openFds := (s.nextFd + 1) :: s.nextFd :: s.openFds, nextFd := s.nextFd + 1 + 1 } : FdState) (s.nextFd + 1)
          = { openFds := s.nextFd :: s.openFds, nextFd := s.nextFd + 1 + 1 } := by
        unfold closeFd
        rw [if_neg (by omega)]
        simp only [FdState.mk.injEq, and_true]
        rw [List.filter_cons, if_neg (by simp)]
        rw [List.filter_cons, if_pos (by simp)]
        rw [filter_ne_of_not_mem s.openFds _ hfresh1]
      simp only [e1, e2, e3]
      exact closeFd_fresh_cons s.openFds s.nextFd _ hn hfresh
    · have e2 : dupFd ({ openFds := s.nextFd :: s.openFds, nextFd := s.nextFd + 1 } : FdState) fd2
          = ({ openFds := s.nextFd :: s.openFds, nextFd := s.nextFd + 1 }, -1) := by
        simp [dupFd, h2]
      simp only [e1, e2, closeFd_neg_one]
      exact closeFd_fresh_cons s.openFds s.nextFd _ hn hfresh
  · have e1 : dupFd s fd1 = (s, -1) := by simp [dupFd, h1]
    by_cases h2 : fd2 ∈ s.openFds
    · have e2 : dupFd s fd2
          = ({ openFds := s.nextFd :: s.openFds, nextFd := s.nextFd + 1 }, s.nextFd) := by
        simp [dupFd, h2]
      have e3 : closeFd ({ openFds := s.nextFd :: s.openFds, nextFd := s.nextFd + 1 } : FdState) s.nextFd
          = { openFds := s.openFds, nextFd := s.nextFd + 1 } := by
        unfold closeFd
        rw [if_neg (by omega)]
        simp only [FdState.mk.injEq, and_true]
        rw [List.filter_cons, if_neg (by simp)]
        rw [filter_ne_of_not_mem s.openFds _ hfresh]
      simp only [e1, e2, e3, closeFd_neg_one]
    · have e2 : dupFd s fd2 = (s, -1) := by simp [dupFd, h2]
      simp only [e1, e2, closeFd_neg_one]

/-! Concrete environments used as test inputs. -/

/-- A process whose main thread has pid 1 while the crashing thread is the
sibling tid 2 (`getpid() = 1`, `gettid() = 2`); every best-effort read
succeeds, `iterate_tids` lists tids 1 and 3, and both the unwinder and the
serializer work. -/
def envC1 : Env :=
  { uid := 42, pid := 1, target_tid := 2,
    thread_name_read := fun _ => some "t",
    cmdline_read := some ["app"],
    selinux_read := some "lbl",
    tids := some [1, 3],
    is_aarch64 := true,
    prctl_tagged_addr_ctrl := 7,
    prctl_pac_enabled_keys := 15,
    unwinder_init_ok := true,
    serialize_ok := true }

def siC1 : Siginfo := { si_signo := 11 }

/-- Same process, but reading the thread listing fails. -/
def envC2 : Env := { envC1 with tids := none }

/-- Same process, but unwinder initialization fails. -/
def envC3 : Env := { envC1 with unwinder_init_ok := false }

/-- A main-thread crash in which every best-effort read fails and the
architecture is not aarch64. -/
def envC8 : Env :=
  { uid := 5, pid := 7, target_tid := 7,
    thread_name_read := fun _ => none,
    cmdline_read := none,
    selinux_read := none,
    tids := some [7],
    is_aarch64 := false,
    prctl_tagged_addr_ctrl := 3,
    prctl_pac_enabled_keys := 3,
    unwinder_init_ok := true,
    serialize_ok := true }

/-- A descriptor table with the tombstone fd 10 and the proto fd 11 open. -/
def fds0 : FdState := { openFds := [10, 11], nextFd := 12 }

/-- C1: the claim says each synthesized sibling inherits uid, pid,
command-line and the two hardware attribute flags from the crashing
thread's captured entry (the map entry keyed by the crashing tid). The
code instead reads them through `threads[pid]` (line 86), which
value-initializes a fresh default entry whenever the crashing thread is
not the main thread. At pid 1, crashing tid 2, discovered sibling tid 3,
the sibling ends up with the defaults (uid 0, pid 0, empty command line,
"unsupported" flags) although the crashing entry carries
uid 42, pid 1, ["app"], 7 and 15. -/
theorem sibling_inherits_defaults_not_crashing_thread :
    (mapLookup 3 (buildThreads envC1 siC1 0).1).map
        (fun v => (v.uid, v.pid, v.command_line, v.tagged_addr_ctrl, v.pac_enabled_keys))
      = some (0, 0, [], unsupported, unsupported) ∧
    (mapLookup 2 (buildThreads envC1 siC1 0).1).map
        (fun v => (v.uid, v.pid, v.command_line, v.tagged_addr_ctrl, v.pac_enabled_keys))
      = some (42, 1, ["app"], 7, 15) := by decide

/-- C2: the claim says that when reading the thread listing fails the
report still gets generated (only a warning is logged) but contains
exactly one thread entry, the crashing thread's. Generation is indeed
non-fatal — the warning is logged, and binary and text output are still
produced — but when the crashing thread is not the main thread the report
contains two entries: the spurious default entry that line 86
(`threads[pid]`) value-initialized at key pid 1, and the crashing tid 2. -/
theorem enumeration_failure_report_has_two_threads :
    ((engrave_tombstone_ucontext envC2 fds0 10 11 0 siC1 0).1.binaryOut.map
        (fun t => t.entries.map Prod.fst)) = some [1, 2] ∧
    LogEvent.iterateTidsFailed ∈ (engrave_tombstone_ucontext envC2 fds0 10 11 0 siC1 0).1.logs ∧
    (engrave_tombstone_ucontext envC2 fds0 10 11 0 siC1 0).1.textOut.length = 5 := by decide

/-- C3: if unwinder initialization fails, the call returns before any
output: no bytes reach the proto sink, no text line is emitted, a
diagnostic with the unwinder error is logged, and the descriptor table is
untouched. -/
theorem unwinder_init_failure_aborts (env : Env) (s : FdState)
    (tombstone_fd proto_fd abort_msg_address : Int) (si : Siginfo) (uc : Nat)
    (h : env.unwinder_init_ok = false) :
    (engrave_tombstone_ucontext env s tombstone_fd proto_fd abort_msg_address si uc).1.binaryOut
        = none ∧
    (engrave_tombstone_ucontext env s tombstone_fd proto_fd abort_msg_address si uc).1.textOut
        = [] ∧
    LogEvent.unwinderInitFailed
        ∈ (engrave_tombstone_ucontext env s tombstone_fd proto_fd abort_msg_address si uc).1.logs ∧
    (engrave_tombstone_ucontext env s tombstone_fd proto_fd abort_msg_address si uc).2 = s := by
  simp [engrave_tombstone_ucontext, h]

/-- Witness for C3 at a concrete failing-initialization input. -/
theorem unwinder_init_failure_aborts_witness :
    (engrave_tombstone_ucontext envC3 fds0 10 11 0 siC1 0).1.binaryOut = none ∧
    (engrave_tombstone_ucontext envC3 fds0 10 11 0 siC1 0).1.textOut = [] ∧
    LogEvent.unwinderInitFailed ∈ (engrave_tombstone_ucontext envC3 fds0 10 11 0 siC1 0).1.logs ∧
    (engrave_tombstone_ucontext envC3 fds0 10 11 0 siC1 0).2 = fds0 :=
  unwinder_init_failure_aborts envC3 fds0 10 11 0 siC1 0 rfl

/-- C5: the mapping produced by capture plus enumeration has strictly
ascending (hence unique) keys, and the entries holding a non-null signal
record are exactly the one keyed by the crashing tid. -/
theorem threads_map_keys_unique_single_siginfo (env : Env) (si : Siginfo) (uc : Nat) :
    SortedKeys (buildThreads env si uc).1 ∧
    ((buildThreads env si uc).1.filter (fun p => p.2.siginfo.isSome)).map Prod.fst
      = [env.target_tid] := by
  obtain ⟨hs, hmem, hiff⟩ := buildThreads_threadsInv env si uc
  exact ⟨hs, filter_siginfo_singleton env.target_tid _ hs.nodup hiff hmem⟩

/-- C4: serialization is skipped exactly when the proto sink carries the
`-1` "no sink provided" sentinel (then nothing reaches the sink and no
write failure is logged); when a sink is provided, a failed write only
logs `protoWriteFailed`; and in every case the text rendering of the same
message still proceeds. -/
theorem proto_sentinel_skip_and_soft_write_failure (env : Env) (s : FdState)
    (output_fd proto_fd : Int) (threads : ThreadMap) (target : Tid)
    (pinfo : ProcessInfo) :
    (engrave_tombstone env s output_fd proto_fd threads target pinfo).1.binaryOut
      = (if proto_fd ≠ -1 then
           (if env.serialize_ok then some (engrave_tombstone_proto threads target pinfo)
            else none)
         else none) ∧
    (engrave_tombstone env s output_fd proto_fd threads target pinfo).1.logs
      = (if proto_fd ≠ -1 then
           (if env.serialize_ok then [] else [LogEvent.protoWriteFailed])
         else []) ∧
    (engrave_tombstone env s output_fd proto_fd threads target pinfo).1.textOut
      = tombstone_proto_to_text (engrave_tombstone_proto threads target pinfo) := by
  by_cases hp : proto_fd = -1 <;> cases hs : env.serialize_ok <;>
    simp [engrave_tombstone, hp, hs]

/-- C6: the mapping built by capture plus enumeration has strictly
ascending keys, and the report builder emits its per-thread entries in
the mapping's order, so any mapping passed to report building with the
`std::map` ordering invariant yields entries sorted by tid. -/
theorem threads_emitted_in_ascending_tid_order :
    (∀ (env : Env) (si : Siginfo) (uc : Nat),
      SortedKeys (buildThreads env si uc).1) ∧
    (∀ (m : ThreadMap) (t : Tid) (p : ProcessInfo), SortedKeys m →
      SortedKeys (engrave_tombstone_proto m t p).entries) := by
  constructor
  · intro env si uc
    exact (buildThreads_threadsInv env si uc).1
  · intro m t p h
    exact h

/-- Witness for C6 on a concrete two-thread mapping. -/
theorem threads_emitted_in_ascending_tid_order_witness :
    SortedKeys (engrave_tombstone_proto [(1, ThreadInfo.default), (3, ThreadInfo.default)] 1
      { abort_msg_address := 0 }).entries :=
  threads_emitted_in_ascending_tid_order.2
    [(1, ThreadInfo.default), (3, ThreadInfo.default)] 1 { abort_msg_address := 0 } (by decide)

/-- C7: the text rendering is a pure function of the thread mapping, the
crashing tid and the process info alone — two invocations of build plus
render produce identical line sequences even across different ambient
states, descriptor arguments and serializer outcomes, and rendering
always yields its (finite, defined) line list. -/
theorem rendering_deterministic (env1 env2 : Env) (s1 s2 : FdState)
    (ofd1 pfd1 ofd2 pfd2 : Int) (threads : ThreadMap) (target : Tid)
    (pinfo : ProcessInfo) :
    (engrave_tombstone env1 s1 ofd1 pfd1 threads target pinfo).1.textOut
      = (engrave_tombstone env2 s2 ofd2 pfd2 threads target pinfo).1.textOut ∧
    (engrave_tombstone env1 s1 ofd1 pfd1 threads target pinfo).1.textOut
      = tombstone_proto_to_text (engrave_tombstone_proto threads target pinfo) := by
  exact ⟨rfl, rfl⟩

/-- C8: capture of the crashing thread never fails as a whole — failed
best-effort reads of the thread name, command-line and security label
yield empty values, the two hardware attribute flags keep their
"unsupported" default off aarch64, and the signal record and register
snapshot are always populated. -/
theorem capture_is_best_effort_total (env : Env) (si : Siginfo) (uc : Nat)
    (h1 : env.thread_name_read env.target_tid = none)
    (h2 : env.cmdline_read = none)
    (h3 : env.selinux_read = none)
    (h4 : env.is_aarch64 = false) :
    (crashingThreadInfo env si uc).thread_name = "" ∧
    (crashingThreadInfo env si uc).command_line = [] ∧
    (crashingThreadInfo env si uc).selinux_label = "" ∧
    (crashingThreadInfo env si uc).tagged_addr_ctrl = unsupported ∧
    (crashingThreadInfo env si uc).pac_enabled_keys = unsupported ∧
    (crashingThreadInfo env si uc).siginfo = some si ∧
    (crashingThreadInfo env si uc).registers = some uc := by
  simp [crashingThreadInfo, get_thread_name, get_command_line, h1, h2, h3, h4]

/-- Witness for C8 at a concrete environment where every read fails. -/
theorem capture_is_best_effort_total_witness :
    (crashingThreadInfo envC8 siC1 0).thread_name = "" ∧
    (crashingThreadInfo envC8 siC1 0).command_line = [] ∧
    (crashingThreadInfo envC8 siC1 0).selinux_label = "" ∧
    (crashingThreadInfo envC8 siC1 0).tagged_addr_ctrl = unsupported ∧
    (crashingThreadInfo envC8 siC1 0).pac_enabled_keys = unsupported ∧
    (crashingThreadInfo envC8 siC1 0).siginfo = some siC1 ∧
    (crashingThreadInfo envC8 siC1 0).registers = some 0 :=
  capture_is_best_effort_total envC8 siC1 0 rfl rfl rfl rfl

/-- C9: `engrave_tombstone_ucontext` hands `engrave_tombstone` duplicated
descriptors, so after the call the caller's descriptor table is exactly
what it was: the callee's `unique_fd` wrappers close only the duplicates,
and the caller's `tombstone_fd` and `proto_fd` remain open. -/
theorem caller_descriptors_preserved (env : Env) (s : FdState)
    (tombstone_fd proto_fd abort_msg_address : Int) (si : Siginfo) (uc : Nat)
    (hwf : FdWF s) :
    (engrave_tombstone_ucontext env s tombstone_fd proto_fd abort_msg_address si uc).2.openFds
      = s.openFds ∧
    (tombstone_fd ∈ s.openFds → tombstone_fd ∈
      (engrave_tombstone_ucontext env s tombstone_fd proto_fd abort_msg_address si uc).2.openFds) ∧
    (proto_fd ∈ s.openFds → proto_fd ∈
      (engrave_tombstone_ucontext env s tombstone_fd proto_fd abort_msg_address si uc).2.openFds) := by
  have hmain : (engrave_tombstone_ucontext env s tombstone_fd proto_fd abort_msg_address
      si uc).2.openFds = s.openFds := by
    cases hu : env.unwinder_init_ok with
    | false => simp [engrave_tombstone_ucontext, hu]
    | true =>
      simp only [engrave_tombstone_ucontext, hu, if_true, engrave_tombstone]
      exact dup_dup_close_close s tombstone_fd proto_fd hwf
  exact ⟨hmain, fun h => hmain ▸ h, fun h => hmain ▸ h⟩

/-- Witness for C9: both caller descriptors survive an invocation on a
well-formed table. -/
theorem caller_descriptors_preserved_witness :
    (engrave_tombstone_ucontext envC1 fds0 10 11 0 siC1 0).2.openFds = fds0.openFds ∧
    (10 ∈ fds0.openFds → 10 ∈ (engrave_tombstone_ucontext envC1 fds0 10 11 0 siC1 0).2.openFds) ∧
    (11 ∈ fds0.openFds → 11 ∈ (engrave_tombstone_ucontext envC1 fds0 10 11 0 siC1 0).2.openFds) :=
  caller_descriptors_preserved envC1 fds0 10 11 0 siC1 0 (by decide)

/-- C10: one `Tombstone` message is built per invocation and both outputs
derive from it — whatever reaches the binary sink is the serialization of
that message, and the text lines are the rendering of that same message. -/
theorem single_proto_drives_both_outputs (env : Env) (s : FdState)
    (output_fd proto_fd : Int) (threads : ThreadMap) (target : Tid)
    (pinfo : ProcessInfo) :
    ((engrave_tombstone env s output_fd proto_fd threads target pinfo).1.binaryOut = none ∨
     (engrave_tombstone env s output_fd proto_fd threads target pinfo).1.binaryOut
       = some (engrave_tombstone_proto threads target pinfo)) ∧
    (engrave_tombstone env s output_fd proto_fd threads target pinfo).1.textOut
      = tombstone_proto_to_text (engrave_tombstone_proto threads target pinfo) := by
  constructor
  · by_cases hp : proto_fd = -1 <;> cases hs : env.serialize_ok <;>
      simp [engrave_tombstone, hp, hs]
  · rfl
